import Mathlib

/-!
Verification of the scheduling / rate-limiting / retry subsystem of the
`crosspost_plugin` repository.

The definitions below are a shallow embedding of the JavaScript source:

* `RateLimiter` (sliding-window limiter, `src/src/webhook-handler.js`,
  class `RateLimiter`): request timestamps per `platform:operation` key,
  the static `platformLimits` table, `checkLimit` and `recordRequest`.
* `PostScheduler` (`src/src/webhook-handler.js`, class `PostScheduler`):
  the scheduled-post collection, `schedulePost`, `cancelScheduledPost`,
  `updateScheduledPost`, `checkScheduledPosts` (the periodic sweep),
  `executeScheduledPost`, `handlePostExecutionError`, the `setTimer`
  callback, `cleanupOldPosts`, and the JSON persistence round trip
  (`saveScheduledPosts` / `loadScheduledPosts`).
* The plugin facade's `schedulePost` (`index.js`), which validates the
  scheduled time before delegating to the scheduler.
* `CrosspostClient.postToPlatform` and `isNonRetryableError`
  (`src/src/crosspost-client.js`): the bounded retry loop with
  rate-limiter recording and the non-retryable error classification.

Times are modelled as `Int` milliseconds since the epoch (JS `Date`
values compare and subtract as their millisecond numbers).  JavaScript
`Map`s are modelled as association lists in insertion order; mutating a
record object held by the map is modelled by rewriting the value at its
key.  External HTTP calls and the injected execution callback are
modelled as oracle functions returning `Except String α`.
-/

namespace Crosspost

/-- Lifecycle status of a scheduled post (the `status` string field). -/
inductive Status where
  | scheduled
  | executing
  | completed
  | failed
  | cancelled
deriving DecidableEq, Repr

/-- The `options` object passed to `schedulePost`; the scheduler itself
only reads `options.maxAttempts` (`maxAttempts: options.maxAttempts || 3`).
The rest of the object is opaque payload, modelled by `payload`. -/
structure Options where
  maxAttempts : Option Nat := none
  payload : String := ""
deriving DecidableEq, Repr

/-- `options.maxAttempts || 3`: JavaScript `||` treats `0` and `undefined`
as falsy. -/
def resolveMaxAttempts (o : Options) : Nat :=
  match o.maxAttempts with
  | some n => if n = 0 then 3 else n
  | none => 3

/-- A `ScheduledPost` record as built by `PostScheduler.schedulePost` and
mutated over its lifecycle. -/
structure Post where
  id : String
  content : String
  platforms : List String
  scheduledTime : Int
  options : Options
  status : Status
  createdAt : Int
  updatedAt : Option Int := none
  completedAt : Option Int := none
  failedAt : Option Int := none
  cancelledAt : Option Int := none
  lastAttemptAt : Option Int := none
  attempts : Nat := 0
  maxAttempts : Nat := 3
  result : Option String := none
  error : Option String := none
deriving DecidableEq, Repr

/-! ## Association-list maps (JavaScript `Map` in insertion order) -/

/-- `Map.get`. -/
def findPost : List (String × Post) → String → Option Post
  | [], _ => none
  | (k, p) :: rest, id => if k = id then some p else findPost rest id

/-- In-place mutation of the record object stored under a key: the value
at `id` is rewritten by `f`, all other entries are untouched. -/
def updatePost : List (String × Post) → String → (Post → Post) →
    List (String × Post)
  | [], _, _ => []
  | (k, q) :: rest, id, f =>
    if k = id then (k, f q) :: updatePost rest id f
    else (k, q) :: updatePost rest id f

/-- `Map.set`: overwrite in place when the key exists, else append. -/
def setPost : List (String × Post) → String → Post → List (String × Post)
  | [], id, p => [(id, p)]
  | (k, q) :: rest, id, p =>
    if k = id then (id, p) :: rest else (k, q) :: setPost rest id p

/-- `Map.delete` of every entry matching a predicate (used by
`cleanupOldPosts`, which deletes while iterating). -/
def dropPosts (l : List (String × Post)) (bad : Post → Bool) :
    List (String × Post) :=
  l.filter (fun e => !bad e.2)

/-! ## RateLimiter -/

/-- One row of the static `platformLimits` table: request count `limit`
per sliding `window` (ms). -/
structure LimitCfg where
  limit : Nat
  window : Int
deriving DecidableEq, Repr

/-- The hardcoded `platformLimits` table of the `RateLimiter`
constructor. -/
def platformLimits (platform operation : String) : Option LimitCfg :=
  if platform = "twitter" then
    if operation = "posts" then some ⟨300, 15 * 60 * 1000⟩
    else if operation = "uploads" then some ⟨300, 15 * 60 * 1000⟩
    else none
  else if platform = "linkedin" then
    if operation = "posts" then some ⟨100, 24 * 60 * 60 * 1000⟩
    else if operation = "uploads" then some ⟨100, 24 * 60 * 60 * 1000⟩
    else none
  else if platform = "facebook" then
    if operation = "posts" then some ⟨200, 60 * 60 * 1000⟩
    else if operation = "uploads" then some ⟨200, 60 * 60 * 1000⟩
    else none
  else if platform = "instagram" then
    if operation = "posts" then some ⟨200, 60 * 60 * 1000⟩
    else if operation = "uploads" then some ⟨200, 60 * 60 * 1000⟩
    else none
  else if platform = "mastodon" then
    if operation = "posts" then some ⟨300, 5 * 60 * 1000⟩
    else if operation = "uploads" then some ⟨300, 5 * 60 * 1000⟩
    else none
  else none

/-- `RateLimiter` state: `this.requests`, a map from `platform:operation`
keys to the list of recorded request timestamps (appended in order). -/
structure RL where
  requests : List (String × List Int) := []
deriving DecidableEq, Repr

/-- Lookup of a key's timestamp list; a missing key behaves as the empty
history (the code lazily creates `[]`). -/
def getRequests : List (String × List Int) → String → List Int
  | [], _ => []
  | (k, ts) :: rest, key => if k = key then ts else getRequests rest key

/-- `this.requests.set(key, ts)`: overwrite in place or append. -/
def setRequests : List (String × List Int) → String → List Int →
    List (String × List Int)
  | [], key, ts => [(key, ts)]
  | (k, v) :: rest, key, ts =>
    if k = key then (key, ts) :: rest else (k, v) :: setRequests rest key ts

/-- The `platform:operation` key string. -/
def rlKey (platform operation : String) : String :=
  platform ++ ":" ++ operation

/-- Result object of `checkLimit`.  In the no-configured-limit branch the
code returns an object without a `retryAfter` property; `none` models an
absent / `null` field. -/
structure CheckRes where
  allowed : Bool
  remaining : Option Int
  resetTime : Option Int
  retryAfter : Option Int
deriving DecidableEq, Repr

/-- `Math.min(...validRequests)` over a nonempty list. -/
def listMin (t : Int) (ts : List Int) : Int :=
  ts.foldl min t

/-- `RateLimiter.checkLimit(platform, operation)`.  Prunes timestamps
outside the window (a state mutation), then reports `allowed`,
`remaining = Math.max(0, limit - validRequests.length)`, `resetTime`
(earliest valid request plus window, or `now + window` when the history
is empty) and `retryAfter = allowed ? 0 : resetTime - now`. -/
def checkLimit (rl : RL) (now : Int) (platform operation : String) :
    RL × CheckRes :=
  match platformLimits platform operation with
  | none => (rl, ⟨true, none, none, none⟩)
  | some cfg =>
    let key := rlKey platform operation
    let windowStart := now - cfg.window
    let requests := getRequests rl.requests key
    let valid := requests.filter (fun t => decide (windowStart < t))
    let rl' : RL := ⟨setRequests rl.requests key valid⟩
    let allowed := decide (valid.length < cfg.limit)
    let remaining : Int := max 0 ((cfg.limit : Int) - valid.length)
    let resetTime : Int :=
      match valid with
      | [] => now + cfg.window
      | t :: ts => listMin t ts + cfg.window
    (rl', ⟨allowed, some remaining, some resetTime,
           some (if allowed then 0 else resetTime - now)⟩)

/-- `RateLimiter.recordRequest(platform, operation)`: append the current
timestamp to the key's history. -/
def recordRequest (rl : RL) (now : Int) (platform operation : String) : RL :=
  let key := rlKey platform operation
  ⟨setRequests rl.requests key (getRequests rl.requests key ++ [now])⟩

/-! ## PostScheduler -/

/-- Scheduler state: `this.scheduledPosts` (a `Map` keyed by schedule id)
and `this.timers` (a `Map` of armed timers; we keep the id and the delay
the timer was armed with). -/
structure Sched where
  posts : List (String × Post) := []
  timers : List (String × Int) := []
deriving DecidableEq, Repr

/-- Value returned by a successful `schedulePost`. -/
structure ScheduleResult where
  success : Bool
  scheduleId : String
  scheduledTime : Int
  platforms : List String
  content : String
deriving DecidableEq, Repr

/-- 24 hours in milliseconds, the timer look-ahead horizon. -/
def dayMs : Int := 24 * 60 * 60 * 1000

/-- `PostScheduler.schedulePost(content, platforms, scheduledTime, options)`.
The generated `scheduleId` (`generateScheduleId()`, timestamp + random
suffix) is passed in as `newId`.  No validation happens here: the record
is created in status `scheduled` unconditionally, and a timer is armed
whenever the post is due within 24 hours (including past times, whose
negative delay fires at once in JS). -/
def schedulePost (s : Sched) (now : Int) (newId : String) (content : String)
    (platforms : List String) (scheduledTime : Int) (options : Options) :
    Sched × ScheduleResult :=
  let post : Post :=
    { id := newId, content, platforms, scheduledTime, options,
      status := .scheduled, createdAt := now, attempts := 0,
      maxAttempts := resolveMaxAttempts options }
  let posts := setPost s.posts newId post
  let timeUntilPost := scheduledTime - now
  let timers :=
    if timeUntilPost ≤ dayMs then s.timers ++ [(newId, timeUntilPost)]
    else s.timers
  (⟨posts, timers⟩,
   ⟨true, newId, scheduledTime, platforms, content⟩)

/-- The plugin facade's `schedulePost` (`index.js`): rejects an
uninitialized plugin, then validates the scheduled time
(`if (scheduleDate <= new Date()) throw new Error('Scheduled time must be
in the future')`) before delegating to `PostScheduler.schedulePost`.
Event-hook emission does not touch scheduler state and is elided. -/
def plugin_schedulePost (isInitialized : Bool) (s : Sched) (now : Int)
    (newId : String) (content : String) (platforms : List String)
    (scheduledTime : Int) (options : Options) :
    Sched × Except String ScheduleResult :=
  if !isInitialized then
    (s, .error "Plugin not initialized. Call initialize() first.")
  else if scheduledTime ≤ now then
    (s, .error "Scheduled time must be in the future")
  else
    let (s', r) := schedulePost s now newId content platforms scheduledTime options
    (s', .ok r)

/-- String form of a status (the `status` field is a string in JS). -/
def statusStr : Status → String
  | .scheduled => "scheduled"
  | .executing => "executing"
  | .completed => "completed"
  | .failed => "failed"
  | .cancelled => "cancelled"

/-- `PostScheduler.cancelScheduledPost(scheduleId)`: only a `scheduled`
record may be cancelled; the armed timer (if any) is cleared, the status
becomes `cancelled` and `cancelledAt` is stamped. -/
def cancelScheduledPost (s : Sched) (now : Int) (id : String) :
    Sched × Except String Unit :=
  match findPost s.posts id with
  | none => (s, .error ("Scheduled post not found: " ++ id))
  | some p =>
    if p.status ≠ .scheduled then
      (s, .error ("Cannot cancel post with status: " ++ statusStr p.status))
    else
      ({ posts := updatePost s.posts id
           (fun q => { q with status := .cancelled, cancelledAt := some now }),
         timers := s.timers.filter (fun e => e.1 ≠ id) },
       .ok ())

/-- One key/value pair of the `updates` object passed to
`updateScheduledPost`.  `otherKey k` stands for any property whose key is
not among the four allowed ones (for example `status` or `attempts`); the
code's `allowedUpdates.includes(key)` filter ignores it. -/
inductive UpdateEntry where
  | contentU (c : String)
  | platformsU (pl : List String)
  | scheduledTimeU (t : Int)
  | optionsU (o : Options)
  | otherKey (k : String)
deriving DecidableEq, Repr

/-- Effect of one `updates` entry inside `updateScheduledPost`'s loop:
allowed fields are assigned; assigning `scheduledTime` also clears the
armed timer and re-arms it when the new time is between `now` and the
24-hour horizon. -/
def applyUpdate (now : Int) (id : String) (st : Sched) (u : UpdateEntry) :
    Sched :=
  match u with
  | .contentU c =>
    { st with posts := updatePost st.posts id (fun p => { p with content := c }) }
  | .platformsU pl =>
    { st with posts := updatePost st.posts id (fun p => { p with platforms := pl }) }
  | .optionsU o =>
    { st with posts := updatePost st.posts id (fun p => { p with options := o }) }
  | .scheduledTimeU t =>
    let posts := updatePost st.posts id (fun p => { p with scheduledTime := t })
    let cleared := st.timers.filter (fun e => e.1 ≠ id)
    let timeUntilPost := t - now
    let timers :=
      if 0 < timeUntilPost ∧ timeUntilPost ≤ dayMs then
        cleared ++ [(id, timeUntilPost)]
      else cleared
    { posts := posts, timers := timers }
  | .otherKey _ => st

/-- `PostScheduler.updateScheduledPost(scheduleId, updates)`: fails only
when the record does not exist; otherwise applies every allowed entry of
`updates` in order (there is **no** status check in the code) and stamps
`updatedAt`. -/
def updateScheduledPost (s : Sched) (now : Int) (id : String)
    (updates : List UpdateEntry) : Sched × Except String Unit :=
  match findPost s.posts id with
  | none => (s, .error ("Scheduled post not found: " ++ id))
  | some _ =>
    let st := updates.foldl (applyUpdate now id) s
    let posts' := updatePost st.posts id (fun p => { p with updatedAt := some now })
    ({ st with posts := posts' }, .ok ())

/-- The injected execution callback `config.onExecutePost(content,
platforms, options)`: an oracle for the actual posting operation. -/
def ExecCb : Type := String → List String → Options → Except String String

/-- First half of `executeScheduledPost`: `post.status = 'executing';
post.attempts++; post.lastAttemptAt = new Date()`. -/
def execMark (now : Int) (s : Sched) (id : String) : Sched :=
  { s with posts := updatePost s.posts id (fun p =>
      { p with status := .executing, attempts := p.attempts + 1,
               lastAttemptAt := some now }) }

/-- Success half of `executeScheduledPost`: `post.status = 'completed';
post.completedAt = new Date(); post.result = result`. -/
def execComplete (now : Int) (s : Sched) (id : String) (r : String) : Sched :=
  { s with posts := updatePost s.posts id (fun q =>
      { q with status := .completed, completedAt := some now,
               result := some r }) }

/-- `PostScheduler.executeScheduledPost(scheduleId, post)`: set status to
`executing`, bump `attempts`, stamp `lastAttemptAt`; then run the
callback.  Success stores `result` and completes the record; a missing
handler or a callback error is rethrown to the caller (the record stays
`executing` with the incremented counter). -/
def executeScheduledPost (cb : Option ExecCb) (now : Int) (s : Sched)
    (id : String) : Sched × Except String Unit :=
  let s1 := execMark now s id
  match cb with
  | none => (s1, .error "No post execution handler configured")
  | some f =>
    match findPost s1.posts id with
    | none => (s1, .ok ())
    | some p =>
      match f p.content p.platforms p.options with
      | .ok r => (execComplete now s1 id r, .ok ())
      | .error e => (s1, .error e)

/-- Retry ceiling: `Math.min(300000, ...)`, five minutes. -/
def retryCeiling : Int := 300000

/-- Backoff base: `60000 * Math.pow(2, post.attempts - 1)`. -/
def retryBase : Int := 60000

/-- `PostScheduler.handlePostExecutionError(scheduleId, post, error)`:
`attempts` has already been incremented by `executeScheduledPost`.  At or
above `maxAttempts` the record fails terminally with the error message
stored; otherwise it goes back to `scheduled` at `now` plus the capped
exponential backoff delay. -/
def handlePostExecutionError (now : Int) (s : Sched) (id : String)
    (errMsg : String) : Sched :=
  { s with posts := updatePost s.posts id (fun p =>
      if p.maxAttempts ≤ p.attempts then
        { p with status := .failed, failedAt := some now, error := some errMsg }
      else
        { p with status := .scheduled,
                 scheduledTime := now + min retryCeiling
                   (retryBase * 2 ^ (p.attempts - 1)) }) }

/-- One iteration of the sweep's execution loop (`try { execute } catch {
handlePostExecutionError }`). -/
def sweepStep (cb : Option ExecCb) (now : Int) (s : Sched) (id : String) :
    Sched :=
  match executeScheduledPost cb now s id with
  | (s', .ok _) => s'
  | (s', .error e) => handlePostExecutionError now s' id e

/-- The ids collected by `checkScheduledPosts` before its execution loop:
records in status `scheduled` whose `scheduledTime` is due. -/
def dueIds (s : Sched) (now : Int) : List String :=
  (s.posts.filter (fun e =>
    decide (e.2.status = .scheduled ∧ e.2.scheduledTime ≤ now))).map (·.1)

/-- `PostScheduler.checkScheduledPosts()` (the periodic sweep): collect
the due `scheduled` records, then execute them in order. -/
def checkScheduledPosts (cb : Option ExecCb) (now : Int) (s : Sched) : Sched :=
  (dueIds s now).foldl (sweepStep cb now) s

/-- The `setTimeout` callback armed by `PostScheduler.setTimer`: executes
the post only if it still exists and is still `scheduled`, then removes
its own timer entry. -/
def timerFire (cb : Option ExecCb) (now : Int) (s : Sched) (id : String) :
    Sched :=
  let s' : Sched :=
    match findPost s.posts id with
    | some p => if p.status = Status.scheduled then sweepStep cb now s id else s
    | none => s
  { s' with timers := s'.timers.filter (fun e => e.1 ≠ id) }

/-- The cleanup predicate of `cleanupOldPosts`: a terminal record whose
terminal timestamp strictly predates the cutoff.  A missing timestamp
compares as JS `undefined < date`, i.e. `false`. -/
def optBefore (t : Option Int) (cutoff : Int) : Bool :=
  match t with
  | some v => decide (v < cutoff)
  | none => false

/-- `shouldCleanup` condition inside `cleanupOldPosts`. -/
def shouldCleanup (p : Post) (cutoff : Int) : Bool :=
  (decide (p.status = .completed) && optBefore p.completedAt cutoff)
  || (decide (p.status = .failed) && optBefore p.failedAt cutoff)
  || (decide (p.status = .cancelled) && optBefore p.cancelledAt cutoff)

/-- `PostScheduler.cleanupOldPosts(olderThanDays)`: delete every record
satisfying `shouldCleanup` against the cutoff `now - olderThanDays` days,
returning the number removed. -/
def cleanupOldPosts (s : Sched) (now : Int) (olderThanDays : Int) :
    Sched × Nat :=
  let cutoff := now - olderThanDays * dayMs
  ({ s with posts := dropPosts s.posts (fun p => shouldCleanup p cutoff) },
   (s.posts.filter (fun e => shouldCleanup e.2 cutoff)).length)

/-! ## CrosspostClient retry loop (`src/src/crosspost-client.js`) -/

/-- `error.message.toLowerCase()`: lower-case every character. -/
def toLowerStr (s : String) : String := String.mk (s.data.map Char.toLower)

/-- Char-list prefix test (Boolean). -/
def isPrefixChars : List Char → List Char → Bool
  | [], _ => true
  | _ :: _, [] => false
  | a :: as, b :: bs => a = b && isPrefixChars as bs

/-- `haystack.includes(needle)` on char lists. -/
def containsSubstr (needle : List Char) : List Char → Bool
  | [] => isPrefixChars needle []
  | c :: rest => isPrefixChars needle (c :: rest) || containsSubstr needle rest

/-- `String.prototype.includes`. -/
def includesStr (hay needle : String) : Bool := containsSubstr needle.data hay.data

/-- The hardcoded `nonRetryableMessages` list of
`CrosspostClient.isNonRetryableError`. -/
def nonRetryableMessages : List String :=
  ["invalid credentials", "unauthorized", "forbidden", "not found",
   "duplicate", "invalid media", "content too long"]

/-- `CrosspostClient.isNonRetryableError(error)`: the lower-cased message
contains one of the fixed substrings. -/
def isNonRetryableError (msg : String) : Bool :=
  nonRetryableMessages.any (fun m => includesStr (toLowerStr msg) m)

/-- The keys of `this.platformClients` set up by `setupPlatformClients`. -/
def supportedPlatform (p : String) : Bool :=
  ["twitter", "linkedin", "facebook", "instagram", "mastodon"].any
    (fun q => decide (q = p))

/-- The `for (attempt = 1; attempt <= retryAttempts; ...)` loop of
`postToPlatform`.  `call attempt` is the oracle for the platform-specific
HTTP call of that attempt (`postToTwitter` etc.).  Each iteration records
a rate-limiter request first; success returns; a non-retryable error is
rethrown at once; a retryable error backs off and retries; fuel
exhaustion raises the terminal wrapper error. -/
def postLoop (call : Nat → Except String String) (platform : String)
    (total : Nat) (now : Int) :
    RL → Nat → Nat → String → RL × Except String String
  | rl, _attempt, 0, lastErr =>
    (rl, .error ("Failed to post to " ++ platform ++ " after "
                 ++ toString total ++ " attempts: " ++ lastErr))
  | rl, attempt, fuel + 1, _lastErr =>
    let rl1 := recordRequest rl now platform "posts"
    match call attempt with
    | .ok res => (rl1, .ok res)
    | .error e =>
      if isNonRetryableError e then (rl1, .error e)
      else postLoop call platform total now rl1 (attempt + 1) fuel e

/-- `CrosspostClient.postToPlatform(platform, content, options)`:
initialization and supported-platform checks, then
`rateLimiter.waitForReset` (whose state effect is `checkLimit`'s pruning),
then the bounded retry loop with `retryAttempts = config.maxRetries || 3`
attempts. -/
def postToPlatform (isInitialized : Bool) (call : Nat → Except String String)
    (rl : RL) (now : Int) (platform : String) (retryAttempts : Nat) :
    RL × Except String String :=
  if !isInitialized then (rl, .error "Client not initialized")
  else if !supportedPlatform platform then
    (rl, .error ("Unsupported platform: " ++ platform))
  else
    let rl1 := (checkLimit rl now platform "posts").1
    postLoop call platform retryAttempts now rl1 1 retryAttempts ""

/-! ## Persistence (`saveScheduledPosts` / `loadScheduledPosts`)

`JSON.stringify` serializes every `Date` field to its ISO-8601 string and
passes the other fields through unchanged; `loadScheduledPosts` parses the
date strings back with `new Date(...)`.  The ISO encoding is an injective
encoding of the millisecond value with an exact parse; it is modelled by
`encodeTime` / `decodeTime`, a decimal rendering of the millisecond
timestamp with its parser. -/

/-- Decimal digit to its character. -/
def digitChar (d : Nat) : Char := Char.ofNat (48 + d)

/-- Character back to its digit value. -/
def charDigit (c : Char) : Nat := c.toNat - 48

/-- Little-endian decimal digits, driven by explicit fuel so that the
recursion is structural. -/
def digitsFuel : Nat → Nat → List Nat
  | 0, _ => []
  | _ + 1, 0 => []
  | fuel + 1, n + 1 => (n + 1) % 10 :: digitsFuel fuel ((n + 1) / 10)

/-- Little-endian decimal digits of a natural number (empty for `0`). -/
def natDigits (n : Nat) : List Nat := digitsFuel n n

/-- Little-endian digit characters of a natural number. -/
def natDigitsRev (n : Nat) : List Char := (natDigits n).map digitChar

/-- Serialize a millisecond timestamp (`Date.prototype.toJSON`). -/
def encodeTime : Int → String
  | .ofNat n => String.mk (natDigitsRev n).reverse
  | .negSucc n => String.mk ('-' :: (natDigitsRev (n + 1)).reverse)

/-- Parse little-endian digit characters. -/
def decodeNatChars (l : List Char) : Nat := Nat.ofDigits 10 (l.map charDigit)

/-- Parse a serialized timestamp back to milliseconds (`new Date(str)`). -/
def decodeTime (s : String) : Int :=
  match s.data with
  | [] => 0
  | c :: cs =>
    if c = '-' then -(decodeNatChars cs.reverse : Int)
    else (decodeNatChars (c :: cs).reverse : Int)

/-- A `ScheduledPost` as it sits in `scheduled-posts.json`: date fields
are strings, everything else passes through JSON unchanged. -/
structure StoredPost where
  id : String
  content : String
  platforms : List String
  scheduledTime : String
  options : Options
  status : String
  createdAt : String
  updatedAt : Option String
  completedAt : Option String
  failedAt : Option String
  cancelledAt : Option String
  lastAttemptAt : Option String
  attempts : Nat
  maxAttempts : Nat
  result : Option String
  error : Option String
deriving DecidableEq, Repr

/-- JSON serialization of one record inside `saveScheduledPosts`. -/
def serializePost (p : Post) : StoredPost :=
  { id := p.id, content := p.content, platforms := p.platforms,
    scheduledTime := encodeTime p.scheduledTime, options := p.options,
    status := statusStr p.status, createdAt := encodeTime p.createdAt,
    updatedAt := p.updatedAt.map encodeTime,
    completedAt := p.completedAt.map encodeTime,
    failedAt := p.failedAt.map encodeTime,
    cancelledAt := p.cancelledAt.map encodeTime,
    lastAttemptAt := p.lastAttemptAt.map encodeTime,
    attempts := p.attempts, maxAttempts := p.maxAttempts,
    result := p.result, error := p.error }

/-- The status string of a loaded record (JS keeps it as the string; this
is the inverse abstraction into `Status`, defaulting like the state
machine's initial state for a corrupt value). -/
def statusOfStr (s : String) : Status :=
  if s = "executing" then .executing
  else if s = "completed" then .completed
  else if s = "failed" then .failed
  else if s = "cancelled" then .cancelled
  else .scheduled

/-- The per-record conversion of `loadScheduledPosts`: date strings are
parsed back (`post.scheduledTime = new Date(post.scheduledTime)` etc.,
the optional ones only when present). -/
def deserializePost (sp : StoredPost) : Post :=
  { id := sp.id, content := sp.content, platforms := sp.platforms,
    scheduledTime := decodeTime sp.scheduledTime, options := sp.options,
    status := statusOfStr sp.status, createdAt := decodeTime sp.createdAt,
    updatedAt := sp.updatedAt.map decodeTime,
    completedAt := sp.completedAt.map decodeTime,
    failedAt := sp.failedAt.map decodeTime,
    cancelledAt := sp.cancelledAt.map decodeTime,
    lastAttemptAt := sp.lastAttemptAt.map decodeTime,
    attempts := sp.attempts, maxAttempts := sp.maxAttempts,
    result := sp.result, error := sp.error }

/-- `saveScheduledPosts`: `Array.from(this.scheduledPosts.values())`
serialized to the JSON document. -/
def saveScheduledPosts (posts : List (String × Post)) : List StoredPost :=
  posts.map (fun e => serializePost e.2)

/-- `loadScheduledPosts`: each parsed record is put back with
`this.scheduledPosts.set(post.id, post)` into the empty map. -/
def loadScheduledPosts (stored : List StoredPost) : List (String × Post) :=
  stored.foldl (fun acc sp => setPost acc sp.id (deserializePost sp)) []

/-! ## The scheduler's external operations as a transition system

Everything an external caller (or the timer/interval machinery) can do to
the scheduler state, used to reason about reachable states. -/

inductive Op where
  | schedule (now : Int) (newId : String) (content : String)
      (platforms : List String) (time : Int) (options : Options)
  | cancel (now : Int) (id : String)
  | update (now : Int) (id : String) (updates : List UpdateEntry)
  | sweep (now : Int)
  | timer (now : Int) (id : String)
  | cleanup (now : Int) (days : Int)
deriving DecidableEq, Repr

/-- State effect of one operation (the facade's `schedulePost` is the
scheduling entry point exposed to callers). -/
def applyOp (cb : Option ExecCb) (s : Sched) : Op → Sched
  | .schedule now newId c pl t o =>
    (plugin_schedulePost true s now newId c pl t o).1
  | .cancel now id => (cancelScheduledPost s now id).1
  | .update now id us => (updateScheduledPost s now id us).1
  | .sweep now => checkScheduledPosts cb now s
  | .timer now id => timerFire cb now s id
  | .cleanup now d => (cleanupOldPosts s now d).1

/-- A run of the system. -/
def applyOps (cb : Option ExecCb) (ops : List Op) (s : Sched) : Sched :=
  ops.foldl (applyOp cb) s

/-- The id freshly generated by a `schedule` operation, if any. -/
def opSchedId : Op → Option String
  | .schedule _ i _ _ _ _ => some i
  | _ => none

/-- Well-formedness of the scheduler state: map keys are distinct. -/
abbrev WF (s : Sched) : Prop := (s.posts.map Prod.fst).Nodup

/-- All fields of a record that `updateScheduledPost` may **not** touch
(everything except `content`, `platforms`, `scheduledTime`, `options`,
`updatedAt`). -/
def sameCore (p q : Post) : Prop :=
  q.id = p.id ∧ q.status = p.status ∧ q.createdAt = p.createdAt ∧
  q.updatedAt = p.updatedAt ∧ q.completedAt = p.completedAt ∧
  q.failedAt = p.failedAt ∧ q.cancelledAt = p.cancelledAt ∧
  q.lastAttemptAt = p.lastAttemptAt ∧ q.attempts = p.attempts ∧
  q.maxAttempts = p.maxAttempts ∧ q.result = p.result ∧ q.error = p.error

/-! ## Concrete instances used in counterexamples and witnesses -/

/-- A record already in terminal status `completed`. -/
def donePost : Post :=
  { id := "p1", content := "old", platforms := ["twitter"],
    scheduledTime := 0, options := {}, status := .completed,
    createdAt := 0, completedAt := some 5, attempts := 1, maxAttempts := 3 }

/-- A scheduler holding one completed record. -/
def doneState : Sched := { posts := [("p1", donePost)], timers := [] }

/-- A record in status `executing` that has just used its last attempt. -/
def exhaustedPost : Post :=
  { id := "b", content := "c", platforms := ["twitter"], scheduledTime := 0,
    options := {}, status := .executing, createdAt := 0, attempts := 3,
    maxAttempts := 3 }

/-- A scheduler holding the exhausted record. -/
def exhaustedState : Sched := { posts := [("b", exhaustedPost)], timers := [] }

/-- A due `scheduled` record. -/
def duePost : Post :=
  { id := "a", content := "x", platforms := ["twitter"], scheduledTime := 50,
    options := {}, status := .scheduled, createdAt := 0, attempts := 0,
    maxAttempts := 3 }

/-- The same record after a user cancellation. -/
def cancelledPost : Post :=
  { duePost with status := .cancelled, cancelledAt := some 60 }

/-- A scheduler holding the due record. -/
def dueState : Sched := { posts := [("a", duePost)], timers := [] }

/-- A scheduler holding the cancelled record. -/
def cancelledState : Sched := { posts := [("a", cancelledPost)], timers := [] }

/-- An execution callback that always succeeds. -/
def okCb : ExecCb := fun _ _ _ => .ok "done"

/-- A platform call that always fails with a non-retryable message. -/
def authFailCall : Nat → Except String String :=
  fun _ => .error "Unauthorized access"

/-! ## Lemmas about the map operations -/

theorem findPost_updatePost_self (l : List (String × Post)) (id : String)
    (f : Post → Post) :
    findPost (updatePost l id f) id = (findPost l id).map f := by
  induction l with
  | nil => rfl
  | cons e rest ih =>
    obtain ⟨k, p⟩ := e
    by_cases h : k = id
    · simp [updatePost, findPost, h]
    · simp [updatePost, findPost, h, ih]

theorem findPost_updatePost_ne (l : List (String × Post)) (id j : String)
    (f : Post → Post) (h : j ≠ id) :
    findPost (updatePost l id f) j = findPost l j := by
  induction l with
  | nil => rfl
  | cons e rest ih =>
    obtain ⟨k, p⟩ := e
    by_cases hk : k = id
    · subst hk
      have hkj : k ≠ j := fun hh => h hh.symm
      simp [updatePost, findPost, hkj, ih]
    · by_cases hj : k = j
      · simp [updatePost, findPost, hk, hj, h]
      · simp [updatePost, findPost, hk, hj, ih]

theorem keys_updatePost (l : List (String × Post)) (id : String)
    (f : Post → Post) :
    (updatePost l id f).map Prod.fst = l.map Prod.fst := by
  induction l with
  | nil => rfl
  | cons e rest ih =>
    obtain ⟨k, p⟩ := e
    by_cases h : k = id <;> simp [updatePost, h, ih]

theorem findPost_setPost_self (l : List (String × Post)) (id : String)
    (p : Post) : findPost (setPost l id p) id = some p := by
  induction l with
  | nil => simp [setPost, findPost]
  | cons e rest ih =>
    obtain ⟨k, q⟩ := e
    by_cases h : k = id
    · simp [setPost, findPost, h]
    · simp [setPost, findPost, h, ih]

theorem findPost_setPost_ne (l : List (String × Post)) (id j : String)
    (p : Post) (h : j ≠ id) :
    findPost (setPost l id p) j = findPost l j := by
  induction l with
  | nil =>
    have hij : id ≠ j := fun hh => h hh.symm
    simp [setPost, findPost, hij]
  | cons e rest ih =>
    obtain ⟨k, q⟩ := e
    by_cases hk : k = id
    · subst hk
      have hkj : k ≠ j := fun hh => h hh.symm
      simp [setPost, findPost, hkj]
    · by_cases hj : k = j
      · simp [setPost, findPost, hk, hj, h]
      · simp [setPost, findPost, hk, hj, ih]

theorem keys_setPost_mem (l : List (String × Post)) (id : String) (p : Post)
    (h : id ∈ l.map Prod.fst) :
    (setPost l id p).map Prod.fst = l.map Prod.fst := by
  induction l with
  | nil => simp at h
  | cons e rest ih =>
    obtain ⟨k, q⟩ := e
    by_cases hk : k = id
    · simp [setPost, hk]
    · have : id ∈ rest.map Prod.fst := by
        rcases List.mem_cons.mp h with h1 | h1
        · exact absurd h1.symm hk
        · exact h1
      simp [setPost, hk, ih this]

theorem keys_setPost_fresh (l : List (String × Post)) (id : String) (p : Post)
    (h : id ∉ l.map Prod.fst) :
    (setPost l id p).map Prod.fst = l.map Prod.fst ++ [id] := by
  induction l with
  | nil => simp [setPost]
  | cons e rest ih =>
    obtain ⟨k, q⟩ := e
    have hk : k ≠ id := by
      intro hh; exact h (by simp [hh])
    have : id ∉ rest.map Prod.fst := fun hh => h (by simp [hh])
    simp [setPost, hk, ih this]

theorem nodup_setPost (l : List (String × Post)) (id : String) (p : Post)
    (h : (l.map Prod.fst).Nodup) :
    ((setPost l id p).map Prod.fst).Nodup := by
  by_cases hm : id ∈ l.map Prod.fst
  · rwa [keys_setPost_mem l id p hm]
  · rw [keys_setPost_fresh l id p hm]
    refine List.Nodup.append h (List.nodup_singleton id) ?_
    intro a ha hb
    rw [List.mem_singleton] at hb
    subst hb
    exact hm ha

theorem findPost_mem (l : List (String × Post)) (id : String) (p : Post)
    (h : findPost l id = some p) : (id, p) ∈ l := by
  induction l with
  | nil => simp [findPost] at h
  | cons e rest ih =>
    obtain ⟨k, q⟩ := e
    by_cases hk : k = id
    · subst hk
      simp [findPost] at h
      simp [h]
    · simp [findPost, hk] at h
      exact List.mem_cons_of_mem _ (ih h)

theorem mem_findPost (l : List (String × Post)) (id : String) (p : Post)
    (hnd : (l.map Prod.fst).Nodup) (h : (id, p) ∈ l) :
    findPost l id = some p := by
  induction l with
  | nil => simp at h
  | cons e rest ih =>
    obtain ⟨k, q⟩ := e
    rw [List.map_cons, List.nodup_cons] at hnd
    rcases List.mem_cons.mp h with h1 | h1
    · cases h1
      simp [findPost]
    · have hk : k ≠ id := by
        intro hh; subst hh
        exact hnd.1 (List.mem_map.mpr ⟨(k, p), h1, rfl⟩)
      simp [findPost, hk]
      exact ih hnd.2 h1

theorem findPost_eq_none (l : List (String × Post)) (id : String)
    (h : id ∉ l.map Prod.fst) : findPost l id = none := by
  induction l with
  | nil => rfl
  | cons e rest ih =>
    obtain ⟨k, q⟩ := e
    have hk : k ≠ id := fun hh => h (by simp [hh])
    have : id ∉ rest.map Prod.fst := fun hh => h (by simp [hh])
    simp [findPost, hk, ih this]

theorem setPost_fresh (l : List (String × Post)) (id : String) (p : Post)
    (h : id ∉ l.map Prod.fst) : setPost l id p = l ++ [(id, p)] := by
  induction l with
  | nil => rfl
  | cons e rest ih =>
    obtain ⟨k, q⟩ := e
    have hk : k ≠ id := fun hh => h (by simp [hh])
    have : id ∉ rest.map Prod.fst := fun hh => h (by simp [hh])
    simp [setPost, hk, ih this]

/-! ## Lemmas about the rate limiter -/

theorem getRequests_setRequests_self (l : List (String × List Int))
    (key : String) (ts : List Int) :
    getRequests (setRequests l key ts) key = ts := by
  induction l with
  | nil => simp [setRequests, getRequests]
  | cons e rest ih =>
    obtain ⟨k, v⟩ := e
    by_cases h : k = key
    · simp [setRequests, getRequests, h]
    · simp [setRequests, getRequests, h, ih]

theorem getRequests_recordRequest_self (rl : RL) (now : Int) (p op : String) :
    getRequests (recordRequest rl now p op).requests (rlKey p op) =
      getRequests rl.requests (rlKey p op) ++ [now] := by
  simp [recordRequest, getRequests_setRequests_self]

theorem getRequests_foldl_record (p op : String) :
    ∀ (ts : List Int) (rl : RL),
      getRequests ((ts.foldl (fun r t => recordRequest r t p op) rl)).requests
          (rlKey p op) =
        getRequests rl.requests (rlKey p op) ++ ts
  | [], rl => by simp
  | t :: ts, rl => by
    rw [List.foldl_cons, getRequests_foldl_record p op ts,
        getRequests_recordRequest_self]
    simp

theorem lt_listMin {a : Int} :
    ∀ (ts : List Int) (t : Int), a < t → (∀ x ∈ ts, a < x) → a < listMin t ts
  | [], t, h, _ => h
  | y :: ys, t, h, hall => by
    have h1 : a < min t y := lt_min h (hall y (by simp))
    have h2 := lt_listMin ys (min t y) h1 (fun x hx => hall x (by simp [hx]))
    simpa [listMin] using h2

theorem platformLimits_pos (p op : String) (cfg : LimitCfg)
    (h : platformLimits p op = some cfg) :
    1 ≤ cfg.limit ∧ 0 < cfg.window := by
  unfold platformLimits at h
  split_ifs at h <;> cases h <;> exact ⟨by norm_num, by norm_num⟩

/-! ## Lemmas about timestamp serialization -/

theorem digitsFuel_lt_ten : ∀ (f n : Nat), ∀ d ∈ digitsFuel f n, d < 10
  | 0, _ => by simp [digitsFuel]
  | _ + 1, 0 => by simp [digitsFuel]
  | f + 1, n + 1 => by
    intro d hd
    simp only [digitsFuel, List.mem_cons] at hd
    rcases hd with h | h
    · subst h
      exact Nat.mod_lt _ (by norm_num)
    · exact digitsFuel_lt_ten f ((n + 1) / 10) d h

theorem ofDigits_digitsFuel :
    ∀ (f n : Nat), n ≤ f → Nat.ofDigits 10 (digitsFuel f n) = n
  | 0, n, h => by
    simp only [digitsFuel, Nat.ofDigits_nil]
    omega
  | _ + 1, 0, _ => by simp [digitsFuel]
  | f + 1, n + 1, h => by
    have hdiv : (n + 1) / 10 ≤ f := by
      have := Nat.div_lt_self (Nat.succ_pos n) (by norm_num : 1 < 10)
      omega
    rw [digitsFuel, Nat.ofDigits_cons,
        ofDigits_digitsFuel f ((n + 1) / 10) hdiv]
    omega

theorem charDigit_digitChar (d : Nat) (h : d < 10) :
    charDigit (digitChar d) = d := by
  interval_cases d <;> rfl

theorem digitChar_ne_dash (d : Nat) (h : d < 10) : digitChar d ≠ '-' := by
  interval_cases d <;> decide

theorem decodeNat_natDigitsRev (n : Nat) :
    decodeNatChars (natDigitsRev n) = n := by
  unfold decodeNatChars natDigitsRev
  rw [List.map_map]
  have hmap : List.map (charDigit ∘ digitChar) (natDigits n) = natDigits n := by
    have h1 : List.map (charDigit ∘ digitChar) (natDigits n) =
        List.map id (natDigits n) :=
      List.map_congr_left (fun d hd =>
        charDigit_digitChar d (digitsFuel_lt_ten n n d hd))
    rw [h1, List.map_id]
  rw [hmap]
  exact ofDigits_digitsFuel n n le_rfl

theorem natDigits_eq_nil_iff (n : Nat) : natDigits n = [] ↔ n = 0 := by
  cases n <;> simp [natDigits, digitsFuel]

theorem mem_natDigitsRev (c : Char) (n : Nat) (h : c ∈ natDigitsRev n) :
    ∃ d, d < 10 ∧ c = digitChar d := by
  unfold natDigitsRev at h
  obtain ⟨d, hd, rfl⟩ := List.mem_map.mp h
  exact ⟨d, digitsFuel_lt_ten n n d hd, rfl⟩

theorem decodeTime_encodeTime (t : Int) : decodeTime (encodeTime t) = t := by
  cases t with
  | ofNat n =>
    show decodeTime (String.mk (natDigitsRev n).reverse) = Int.ofNat n
    unfold decodeTime
    cases hrev : (natDigitsRev n).reverse with
    | nil =>
      have h0 : natDigitsRev n = [] := by
        have := congrArg List.reverse hrev
        simpa using this
      have hn : n = 0 := by
        have : natDigits n = [] := by
          unfold natDigitsRev at h0
          exact List.map_eq_nil_iff.mp h0
        exact (natDigits_eq_nil_iff n).mp this
      subst hn
      rfl
    | cons c cs =>
      have hc : c ∈ natDigitsRev n := by
        rw [← List.mem_reverse, hrev]
        simp
      obtain ⟨d, hd10, rfl⟩ := mem_natDigitsRev c n hc
      have hdash : ¬(digitChar d = '-') := digitChar_ne_dash d hd10
      simp only [hrev, hdash, if_false]
      have : (digitChar d :: cs).reverse = natDigitsRev n := by
        rw [← hrev, List.reverse_reverse]
      rw [this, decodeNat_natDigitsRev]
      rfl
  | negSucc n =>
    show decodeTime (String.mk ('-' :: (natDigitsRev (n + 1)).reverse)) =
      Int.negSucc n
    unfold decodeTime
    simp only [if_pos rfl, List.reverse_reverse, decodeNat_natDigitsRev]
    simp [Int.negSucc_eq]

theorem statusOfStr_statusStr (st : Status) :
    statusOfStr (statusStr st) = st := by
  cases st <;> rfl

theorem optTime_roundtrip (o : Option Int) :
    o.map (decodeTime ∘ encodeTime) = o := by
  cases o with
  | none => rfl
  | some a => simp [Function.comp, decodeTime_encodeTime]

theorem deserialize_serialize (p : Post) :
    deserializePost (serializePost p) = p := by
  cases p
  simp [serializePost, deserializePost, decodeTime_encodeTime,
        statusOfStr_statusStr, optTime_roundtrip]

theorem load_aux :
    ∀ (posts acc : List (String × Post)),
      (∀ e ∈ posts, e.2.id = e.1) →
      ((acc ++ posts).map Prod.fst).Nodup →
      (saveScheduledPosts posts).foldl
          (fun a sp => setPost a sp.id (deserializePost sp)) acc =
        acc ++ posts
  | [], acc, _, _ => by simp [saveScheduledPosts]
  | (k, p) :: rest, acc, hids, hnd => by
    have hid : p.id = k := hids (k, p) (by simp)
    have hnd' := hnd
    rw [List.map_append, List.nodup_append] at hnd'
    obtain ⟨_, _, hdisj⟩ := hnd'
    have hkfresh : k ∉ acc.map Prod.fst := fun hk => hdisj hk (by simp)
    have hstep : setPost acc (serializePost p).id (deserializePost (serializePost p)) =
        acc ++ [(k, p)] := by
      rw [deserialize_serialize]
      show setPost acc p.id p = acc ++ [(k, p)]
      rw [hid]
      exact setPost_fresh acc k p hkfresh
    have hrec := load_aux rest (acc ++ [(k, p)])
      (fun e he => hids e (by simp [he]))
      (by simpa using hnd)
    show ((serializePost p :: saveScheduledPosts rest).foldl
        (fun a sp => setPost a sp.id (deserializePost sp)) acc) = _
    rw [List.foldl_cons]
    rw [hstep, hrec]
    simp

/-! ## Frame lemmas for `updateScheduledPost` -/

theorem sameCore_refl (p : Post) : sameCore p p := by
  simp [sameCore]

theorem sameCore_trans {p q r : Post} (h1 : sameCore p q) (h2 : sameCore q r) :
    sameCore p r := by
  unfold sameCore at *
  obtain ⟨a1, a2, a3, a4, a5, a6, a7, a8, a9, a10, a11, a12⟩ := h1
  obtain ⟨b1, b2, b3, b4, b5, b6, b7, b8, b9, b10, b11, b12⟩ := h2
  exact ⟨b1.trans a1, b2.trans a2, b3.trans a3, b4.trans a4, b5.trans a5,
         b6.trans a6, b7.trans a7, b8.trans a8, b9.trans a9, b10.trans a10,
         b11.trans a11, b12.trans a12⟩

theorem applyUpdate_off (now : Int) (j : String) (st : Sched) (u : UpdateEntry)
    (i : String) (h : i ≠ j) :
    findPost (applyUpdate now j st u).posts i = findPost st.posts i := by
  cases u <;> simp [applyUpdate, findPost_updatePost_ne _ _ _ _ h]

theorem applyUpdate_keys (now : Int) (j : String) (st : Sched)
    (u : UpdateEntry) :
    (applyUpdate now j st u).posts.map Prod.fst = st.posts.map Prod.fst := by
  cases u <;> simp [applyUpdate, keys_updatePost]

theorem applyUpdate_core (now : Int) (j : String) (st : Sched) (u : UpdateEntry)
    (p : Post) (hfind : findPost st.posts j = some p) :
    ∃ q, findPost (applyUpdate now j st u).posts j = some q ∧ sameCore p q := by
  cases u <;>
    simp only [applyUpdate, findPost_updatePost_self, hfind, Option.map_some'] <;>
    exact ⟨_, rfl, by simp [sameCore]⟩

theorem updateFold_core (now : Int) (j : String) :
    ∀ (us : List UpdateEntry) (st : Sched) (p : Post),
      findPost st.posts j = some p →
      ∃ q, findPost ((us.foldl (applyUpdate now j) st)).posts j = some q ∧
        sameCore p q
  | [], st, p, hfind => ⟨p, by simpa using hfind, sameCore_refl p⟩
  | u :: us, st, p, hfind => by
    obtain ⟨q1, hq1, hc1⟩ := applyUpdate_core now j st u p hfind
    obtain ⟨q, hq, hc⟩ := updateFold_core now j us (applyUpdate now j st u) q1 hq1
    exact ⟨q, by simpa using hq, sameCore_trans hc1 hc⟩

theorem updateFold_off (now : Int) (j i : String) (h : i ≠ j) :
    ∀ (us : List UpdateEntry) (st : Sched),
      findPost ((us.foldl (applyUpdate now j) st)).posts i = findPost st.posts i
  | [], st => rfl
  | u :: us, st => by
    rw [List.foldl_cons, updateFold_off now j i h us (applyUpdate now j st u),
        applyUpdate_off now j st u i h]

theorem updateFold_keys (now : Int) (j : String) :
    ∀ (us : List UpdateEntry) (st : Sched),
      ((us.foldl (applyUpdate now j) st)).posts.map Prod.fst =
        st.posts.map Prod.fst
  | [], st => rfl
  | u :: us, st => by
    rw [List.foldl_cons, updateFold_keys now j us (applyUpdate now j st u),
        applyUpdate_keys now j st u]

theorem update_off (s : Sched) (now : Int) (j : String) (us : List UpdateEntry)
    (i : String) (h : i ≠ j) :
    findPost ((updateScheduledPost s now j us).1).posts i = findPost s.posts i := by
  unfold updateScheduledPost
  cases hf : findPost s.posts j with
  | none => rfl
  | some p =>
    simp only []
    rw [findPost_updatePost_ne _ _ _ _ h, updateFold_off now j i h us s]

theorem update_keys (s : Sched) (now : Int) (j : String)
    (us : List UpdateEntry) :
    ((updateScheduledPost s now j us).1).posts.map Prod.fst =
      s.posts.map Prod.fst := by
  unfold updateScheduledPost
  cases hf : findPost s.posts j with
  | none => rfl
  | some p =>
    simp only []
    rw [keys_updatePost, updateFold_keys now j us s]

theorem update_core (s : Sched) (now : Int) (j : String) (us : List UpdateEntry)
    (p : Post) (hfind : findPost s.posts j = some p) :
    ∃ q, findPost ((updateScheduledPost s now j us).1).posts j = some q ∧
      q.id = p.id ∧ q.status = p.status ∧ q.createdAt = p.createdAt ∧
      q.completedAt = p.completedAt ∧ q.failedAt = p.failedAt ∧
      q.cancelledAt = p.cancelledAt ∧ q.lastAttemptAt = p.lastAttemptAt ∧
      q.attempts = p.attempts ∧ q.maxAttempts = p.maxAttempts ∧
      q.result = p.result ∧ q.error = p.error ∧ q.updatedAt = some now := by
  unfold updateScheduledPost
  rw [hfind]
  simp only []
  obtain ⟨q1, hq1, hc⟩ := updateFold_core now j us s p hfind
  obtain ⟨a1, a2, a3, _, a5, a6, a7, a8, a9, a10, a11, a12⟩ := hc
  refine ⟨{ q1 with updatedAt := some now }, ?_, a1, a2, a3, a5, a6, a7, a8,
    a9, a10, a11, a12, rfl⟩
  rw [findPost_updatePost_self, hq1]
  rfl

/-! ## Lemmas about the sweep and timer execution -/

theorem execMark_off (now : Int) (s : Sched) (id j : String) (h : j ≠ id) :
    findPost (execMark now s id).posts j = findPost s.posts j :=
  findPost_updatePost_ne _ _ _ _ h

theorem execMark_keys (now : Int) (s : Sched) (id : String) :
    (execMark now s id).posts.map Prod.fst = s.posts.map Prod.fst :=
  keys_updatePost _ _ _

theorem executeScheduledPost_off (cb : Option ExecCb) (now : Int) (s : Sched)
    (id : String) :
    (∀ j, j ≠ id →
      findPost ((executeScheduledPost cb now s id).1).posts j = findPost s.posts j) ∧
    ((executeScheduledPost cb now s id).1).posts.map Prod.fst =
      s.posts.map Prod.fst ∧
    ((executeScheduledPost cb now s id).1).timers = s.timers := by
  unfold executeScheduledPost
  cases cb with
  | none =>
    exact ⟨fun j hj => execMark_off now s id j hj, execMark_keys now s id, rfl⟩
  | some f =>
    simp only []
    split
    · exact ⟨fun j hj => execMark_off now s id j hj, execMark_keys now s id, rfl⟩
    · split
      · refine ⟨fun j hj => ?_, ?_, rfl⟩
        · show findPost (execComplete now (execMark now s id) id _).posts j = _
          unfold execComplete
          rw [findPost_updatePost_ne _ _ _ _ hj, execMark_off now s id j hj]
        · show (execComplete now (execMark now s id) id _).posts.map Prod.fst = _
          unfold execComplete
          rw [keys_updatePost, execMark_keys now s id]
      · exact ⟨fun j hj => execMark_off now s id j hj, execMark_keys now s id, rfl⟩

theorem handleError_off (now : Int) (s : Sched) (id j : String) (e : String)
    (h : j ≠ id) :
    findPost (handlePostExecutionError now s id e).posts j = findPost s.posts j :=
  findPost_updatePost_ne _ _ _ _ h

theorem sweepStep_off (cb : Option ExecCb) (now : Int) (s : Sched)
    (id : String) :
    (∀ j, j ≠ id →
      findPost (sweepStep cb now s id).posts j = findPost s.posts j) ∧
    (sweepStep cb now s id).posts.map Prod.fst = s.posts.map Prod.fst ∧
    (sweepStep cb now s id).timers = s.timers := by
  obtain ⟨hoff, hkeys, htimers⟩ := executeScheduledPost_off cb now s id
  unfold sweepStep
  rcases hx : executeScheduledPost cb now s id with ⟨s', r⟩
  rw [hx] at hoff hkeys htimers
  cases r with
  | ok _ => exact ⟨hoff, hkeys, htimers⟩
  | error e =>
    refine ⟨fun j hj => ?_, ?_, htimers⟩
    · unfold handlePostExecutionError
      rw [findPost_updatePost_ne _ _ _ _ hj]
      exact hoff j hj
    · unfold handlePostExecutionError
      rw [keys_updatePost]
      exact hkeys

theorem foldl_sweep_off (cb : Option ExecCb) (now : Int) :
    ∀ (ids : List String) (s : Sched) (j : String), j ∉ ids →
      findPost ((ids.foldl (sweepStep cb now) s)).posts j = findPost s.posts j
  | [], _, _, _ => rfl
  | i :: ids, s, j, hj => by
    rw [List.foldl_cons,
        foldl_sweep_off cb now ids (sweepStep cb now s i) j
          (fun h => hj (by simp [h])),
        (sweepStep_off cb now s i).1 j (fun h => hj (by simp [h]))]

theorem foldl_sweep_keys (cb : Option ExecCb) (now : Int) :
    ∀ (ids : List String) (s : Sched),
      ((ids.foldl (sweepStep cb now) s)).posts.map Prod.fst =
        s.posts.map Prod.fst
  | [], _ => rfl
  | i :: ids, s => by
    rw [List.foldl_cons, foldl_sweep_keys cb now ids (sweepStep cb now s i),
        (sweepStep_off cb now s i).2.1]

theorem mem_dueIds (s : Sched) (now : Int) (id : String) :
    id ∈ dueIds s now ↔
      ∃ p, (id, p) ∈ s.posts ∧ p.status = .scheduled ∧ p.scheduledTime ≤ now := by
  unfold dueIds
  constructor
  · intro h
    obtain ⟨e, he, heq⟩ := List.mem_map.mp h
    obtain ⟨k, p⟩ := e
    obtain rfl : k = id := heq
    obtain ⟨hmem, hcond⟩ := List.mem_filter.mp he
    have hc := of_decide_eq_true hcond
    exact ⟨p, hmem, hc.1, hc.2⟩
  · rintro ⟨p, hmem, h1, h2⟩
    exact List.mem_map.mpr
      ⟨(id, p), List.mem_filter.mpr ⟨hmem, decide_eq_true ⟨h1, h2⟩⟩, rfl⟩

theorem dueIds_nodup (s : Sched) (now : Int) (h : WF s) :
    (dueIds s now).Nodup := by
  unfold dueIds
  exact List.Nodup.sublist ((List.filter_sublist _).map Prod.fst) h

/-- At the moment the sweep's execution loop reaches an id it collected,
that record still has status `scheduled` (and is still due). -/
theorem sweep_exec_scheduled (cb : Option ExecCb) (now : Int) (s : Sched)
    (hwf : WF s) (pre : List String) (id : String) (post : List String)
    (hdec : dueIds s now = pre ++ id :: post) :
    ∃ p, findPost ((pre.foldl (sweepStep cb now) s)).posts id = some p ∧
      p.status = .scheduled ∧ p.scheduledTime ≤ now := by
  have hmem : id ∈ dueIds s now := by
    rw [hdec]
    simp
  obtain ⟨p, hp, hst, ht⟩ := (mem_dueIds s now id).mp hmem
  have hfind := mem_findPost s.posts id p hwf hp
  have hnodup := dueIds_nodup s now hwf
  rw [hdec, List.nodup_append] at hnodup
  have hidpre : id ∉ pre := fun hin => hnodup.2.2 hin (by simp)
  rw [foldl_sweep_off cb now pre s id hidpre, hfind]
  exact ⟨p, rfl, hst, ht⟩

/-- The timer callback never executes a record that is no longer
`scheduled`: the posts collection is untouched. -/
theorem timerFire_not_scheduled (cb : Option ExecCb) (now : Int) (s : Sched)
    (id : String) (p : Post) (hfind : findPost s.posts id = some p)
    (h : p.status ≠ .scheduled) :
    (timerFire cb now s id).posts = s.posts := by
  unfold timerFire
  rw [hfind]
  simp [h]

/-! ## Preservation lemmas for each external operation -/

theorem WF_schedulePost (s : Sched) (now : Int) (newId c : String)
    (pl : List String) (t : Int) (o : Options) (h : WF s) :
    WF ((schedulePost s now newId c pl t o).1) := by
  unfold schedulePost WF
  simp only []
  exact nodup_setPost _ _ _ h

theorem WF_plugin_schedule (s : Sched) (now : Int) (newId c : String)
    (pl : List String) (t : Int) (o : Options) (h : WF s) :
    WF ((plugin_schedulePost true s now newId c pl t o).1) := by
  unfold plugin_schedulePost
  by_cases ht : t ≤ now
  · simpa [ht] using h
  · simpa [ht] using WF_schedulePost s now newId c pl t o h

theorem schedule_off (s : Sched) (now : Int) (newId c : String)
    (pl : List String) (t : Int) (o : Options) (j : String) (h : j ≠ newId) :
    findPost ((plugin_schedulePost true s now newId c pl t o).1).posts j =
      findPost s.posts j := by
  unfold plugin_schedulePost schedulePost
  by_cases ht : t ≤ now <;> simp [ht, findPost_setPost_ne _ _ _ _ h]

theorem cancel_state (s : Sched) (now : Int) (id : String) :
    (cancelScheduledPost s now id).1 = s ∨
    ∃ p, findPost s.posts id = some p ∧ p.status = .scheduled ∧
      (cancelScheduledPost s now id).1 =
        { posts := updatePost s.posts id
            (fun q => { q with status := .cancelled, cancelledAt := some now }),
          timers := s.timers.filter (fun e => e.1 ≠ id) } := by
  unfold cancelScheduledPost
  cases hf : findPost s.posts id with
  | none => exact .inl rfl
  | some p =>
    simp only []
    by_cases hst : p.status = Status.scheduled
    · right
      exact ⟨p, rfl, hst, by simp [hst]⟩
    · left
      simp [hst]

theorem cancel_posts_cases (s : Sched) (now : Int) (id : String) :
    (cancelScheduledPost s now id).1.posts = s.posts ∨
    ∃ p, findPost s.posts id = some p ∧ p.status = .scheduled ∧
      (cancelScheduledPost s now id).1.posts = updatePost s.posts id
        (fun q => { q with status := .cancelled, cancelledAt := some now }) := by
  rcases cancel_state s now id with hc | ⟨p, hf, hst, hc⟩
  · exact .inl (by rw [hc])
  · exact .inr ⟨p, hf, hst, by rw [hc]⟩

theorem WF_cancel (s : Sched) (now : Int) (id : String) (h : WF s) :
    WF ((cancelScheduledPost s now id).1) := by
  rcases cancel_state s now id with hc | ⟨p, _, _, hc⟩
  · rwa [hc]
  · rw [hc]
    unfold WF
    simp only []
    rw [keys_updatePost]
    exact h

theorem cancel_off (s : Sched) (now : Int) (id j : String) (h : j ≠ id) :
    findPost ((cancelScheduledPost s now id).1).posts j = findPost s.posts j := by
  rcases cancel_state s now id with hc | ⟨p, _, _, hc⟩
  · rw [hc]
  · rw [hc]
    exact findPost_updatePost_ne _ _ _ _ h

theorem cancel_success (s : Sched) (now : Int) (id : String) (p : Post)
    (hfind : findPost s.posts id = some p) (hst : p.status = .scheduled) :
    (cancelScheduledPost s now id).2 = .ok () ∧
    findPost ((cancelScheduledPost s now id).1).posts id =
      some { p with status := .cancelled, cancelledAt := some now } := by
  unfold cancelScheduledPost
  rw [hfind]
  simp only []
  constructor
  · simp [hst]
  · simp only [hst]
    simp only [if_neg (by simp : ¬(Status.scheduled ≠ Status.scheduled))]
    rw [findPost_updatePost_self, hfind]
    simp [hst]

theorem update_none (s : Sched) (now : Int) (j : String) (us : List UpdateEntry)
    (hf : findPost s.posts j = none) :
    (updateScheduledPost s now j us).1 = s := by
  unfold updateScheduledPost
  rw [hf]

theorem WF_update (s : Sched) (now : Int) (j : String) (us : List UpdateEntry)
    (h : WF s) : WF ((updateScheduledPost s now j us).1) := by
  unfold WF
  rw [update_keys]
  exact h

theorem WF_sweep (cb : Option ExecCb) (now : Int) (s : Sched) (h : WF s) :
    WF (checkScheduledPosts cb now s) := by
  unfold WF checkScheduledPosts
  rw [foldl_sweep_keys]
  exact h

theorem timer_posts_cases (cb : Option ExecCb) (now : Int) (s : Sched)
    (id : String) :
    (timerFire cb now s id).posts = s.posts ∨
    ((∃ p, findPost s.posts id = some p ∧ p.status = .scheduled) ∧
     (timerFire cb now s id).posts = (sweepStep cb now s id).posts) := by
  unfold timerFire
  cases hf : findPost s.posts id with
  | none => exact .inl rfl
  | some p =>
    simp only []
    by_cases hst : p.status = Status.scheduled
    · right
      exact ⟨⟨p, rfl, hst⟩, by simp [hst]⟩
    · left
      simp [hst]

theorem WF_timer (cb : Option ExecCb) (now : Int) (s : Sched) (id : String)
    (h : WF s) : WF (timerFire cb now s id) := by
  rcases timer_posts_cases cb now s id with hc | ⟨_, hc⟩
  · unfold WF
    rw [hc]
    exact h
  · unfold WF
    rw [hc, (sweepStep_off cb now s id).2.1]
    exact h

theorem WF_cleanup (s : Sched) (now d : Int) (h : WF s) :
    WF ((cleanupOldPosts s now d).1) := by
  unfold WF cleanupOldPosts dropPosts
  simp only []
  exact List.Nodup.sublist ((List.filter_sublist _).map Prod.fst) h

theorem cleanup_find (s : Sched) (now d : Int) (id : String) (q : Post)
    (hwf : WF s)
    (hq : findPost ((cleanupOldPosts s now d).1).posts id = some q) :
    findPost s.posts id = some q := by
  have hmem := findPost_mem _ _ _ hq
  have : (id, q) ∈ s.posts := List.mem_of_mem_filter hmem
  exact mem_findPost _ _ _ hwf this

theorem WF_applyOp (cb : Option ExecCb) (s : Sched) (op : Op) (h : WF s) :
    WF (applyOp cb s op) := by
  cases op with
  | schedule now nid c pl t o => exact WF_plugin_schedule s now nid c pl t o h
  | cancel now id => exact WF_cancel s now id h
  | update now id us => exact WF_update s now id us h
  | sweep now => exact WF_sweep cb now s h
  | timer now id => exact WF_timer cb now s id h
  | cleanup now d => exact WF_cleanup s now d h

/-- A record that is `cancelled` can never leave that status under any
single external operation (as long as no `schedule` reuses its id, which
the random id generator never does). -/
theorem cancelled_stable_op (cb : Option ExecCb) (s : Sched) (op : Op)
    (id : String) (hwf : WF s)
    (hinv : ∀ q, findPost s.posts id = some q → q.status = .cancelled)
    (hop : opSchedId op ≠ some id) :
    ∀ q, findPost (applyOp cb s op).posts id = some q → q.status = .cancelled := by
  cases op with
  | schedule now2 nid c pl t o =>
    intro q hq
    have hnid : id ≠ nid := by
      intro hh
      exact hop (by simp [opSchedId, hh])
    simp only [applyOp] at hq
    rw [schedule_off s now2 nid c pl t o id hnid] at hq
    exact hinv q hq
  | cancel now2 j =>
    intro q hq
    simp only [applyOp] at hq
    rcases cancel_posts_cases s now2 j with hc | ⟨p, hf, hst, hc⟩
    · rw [hc] at hq
      exact hinv q hq
    · by_cases hji : j = id
      · subst hji
        rw [hinv p hf] at hst
        exact absurd hst (by decide)
      · rw [hc, findPost_updatePost_ne _ _ _ _ (fun hh => hji hh.symm)] at hq
        exact hinv q hq
  | update now2 j us =>
    intro q hq
    simp only [applyOp] at hq
    by_cases hji : j = id
    · subst hji
      cases hf : findPost s.posts j with
      | none =>
        rw [update_none s now2 j us hf] at hq
        exact hinv q hq
      | some r =>
        obtain ⟨q0, hq0, _, hstq, _⟩ := update_core s now2 j us r hf
        rw [hq0] at hq
        obtain rfl : q0 = q := by
          injection hq
        rw [hstq]
        exact hinv r hf
    · rw [update_off s now2 j us id (fun hh => hji hh.symm)] at hq
      exact hinv q hq
  | sweep now2 =>
    intro q hq
    simp only [applyOp] at hq
    have hnot : id ∉ dueIds s now2 := by
      intro hin
      obtain ⟨p, hp, hst, _⟩ := (mem_dueIds s now2 id).mp hin
      have hf := mem_findPost _ _ _ hwf hp
      rw [hinv p hf] at hst
      exact absurd hst (by decide)
    unfold checkScheduledPosts at hq
    rw [foldl_sweep_off cb now2 _ s id hnot] at hq
    exact hinv q hq
  | timer now2 j =>
    intro q hq
    simp only [applyOp] at hq
    rcases timer_posts_cases cb now2 s j with hc | ⟨⟨p, hf, hst⟩, hc⟩
    · rw [hc] at hq
      exact hinv q hq
    · by_cases hji : j = id
      · subst hji
        rw [hinv p hf] at hst
        exact absurd hst (by decide)
      · rw [hc, (sweepStep_off cb now2 s j).1 id (fun hh => hji hh.symm)] at hq
        exact hinv q hq
  | cleanup now2 d =>
    intro q hq
    simp only [applyOp] at hq
    exact hinv q (cleanup_find s now2 d id q hwf hq)

/-- A `cancelled` record stays `cancelled` (if not deleted by cleanup)
across any run of external operations whose freshly generated schedule ids
differ from it. -/
theorem cancelled_stable_run (cb : Option ExecCb) :
    ∀ (ops : List Op) (s : Sched) (id : String), WF s →
      (∀ q, findPost s.posts id = some q → q.status = .cancelled) →
      (∀ op ∈ ops, opSchedId op ≠ some id) →
      WF (applyOps cb ops s) ∧
      (∀ q, findPost (applyOps cb ops s).posts id = some q →
        q.status = .cancelled)
  | [], _, _, hwf, hinv, _ => ⟨hwf, hinv⟩
  | op :: ops, s, id, hwf, hinv, hops => by
    have h1 := WF_applyOp cb s op hwf
    have h2 := cancelled_stable_op cb s op id hwf hinv (hops op (by simp))
    have h3 := cancelled_stable_run cb ops (applyOp cb s op) id h1 h2
      (fun o ho => hops o (by simp [ho]))
    simpa [applyOps] using h3

/-! ## Remaining helper lemmas -/

theorem filter_min_bound (a : Int) (l : List Int) (t : Int) (ts : List Int)
    (h : l.filter (fun x => decide (a < x)) = t :: ts) : a < listMin t ts := by
  have hall : ∀ x ∈ t :: ts, a < x := by
    intro x hx
    have hx' : x ∈ l.filter (fun x => decide (a < x)) := by
      rw [h]
      exact hx
    exact of_decide_eq_true (List.mem_filter.mp hx').2
  exact lt_listMin ts t (hall t (by simp)) (fun x hx => hall x (by simp [hx]))

theorem filter_length_partition {α : Type} (l : List α) (p : α → Bool) :
    (l.filter p).length + (l.filter (fun a => !p a)).length = l.length := by
  induction l with
  | nil => rfl
  | cons e rest ih =>
    by_cases h : p e <;> simp [List.filter_cons, h, ← ih] <;> omega

theorem postLoop_nonretryable (call : Nat → Except String String)
    (platform : String) (total : Nat) (now : Int) (rl : RL)
    (attempt fuel : Nat) (lastErr e : String)
    (hcall : call attempt = .error e) (hnr : isNonRetryableError e = true) :
    postLoop call platform total now rl attempt (fuel + 1) lastErr =
      (recordRequest rl now platform "posts", .error e) := by
  unfold postLoop
  rw [hcall]
  simp [hnr]

/-! # Claim theorems -/

/-- C1: every `schedulePost` call through the plugin entry point whose
`scheduledTime` is not strictly in the future fails with the validation
error and leaves the scheduler state (collection and timers, and hence
the persisted set) unchanged — no record is created. -/
theorem schedulePost_past_rejected (s : Sched) (now : Int) (newId c : String)
    (pl : List String) (t : Int) (o : Options) (h : t ≤ now) :
    plugin_schedulePost true s now newId c pl t o =
      (s, .error "Scheduled time must be in the future") := by
  unfold plugin_schedulePost
  simp [h]

/-- Witness for C1: scheduling at exactly the current time is rejected and
the empty scheduler stays empty. -/
theorem schedulePost_past_rejected_witness :
    plugin_schedulePost true {} 100 "id1" "c" ["twitter"] 100 {} =
      ({}, .error "Scheduled time must be in the future") :=
  schedulePost_past_rejected {} 100 "id1" "c" ["twitter"] 100 {} (by decide)

/-- C2 counterexample: `updateScheduledPost` has no status guard — a
record in terminal status `completed` is mutated (its `content` changes),
refuting "a record in any other status is left unchanged". -/
theorem updateScheduledPost_ignores_status :
    (findPost doneState.posts "p1").map Post.status = some .completed ∧
    (updateScheduledPost doneState 10 "p1" [.contentU "new"]).1 ≠ doneState ∧
    (findPost ((updateScheduledPost doneState 10 "p1" [.contentU "new"]).1).posts
        "p1").map Post.content = some "new" := by
  decide

/-- C2 (amended): for every call to `updateScheduledPost(id, updates)` on
an existing record, only the fields `content`, `platforms`,
`scheduledTime` and `options` (plus `updatedAt`) may change and every
other record is untouched; the mutation is applied **regardless of the
record's status** (the code has no status check), and the status itself
is among the fields that never change. -/
theorem updateScheduledPost_frame (s : Sched) (now : Int) (id : String)
    (us : List UpdateEntry) (p : Post)
    (hfind : findPost s.posts id = some p) :
    (∃ q, findPost ((updateScheduledPost s now id us).1).posts id = some q ∧
      q.id = p.id ∧ q.status = p.status ∧ q.createdAt = p.createdAt ∧
      q.completedAt = p.completedAt ∧ q.failedAt = p.failedAt ∧
      q.cancelledAt = p.cancelledAt ∧ q.lastAttemptAt = p.lastAttemptAt ∧
      q.attempts = p.attempts ∧ q.maxAttempts = p.maxAttempts ∧
      q.result = p.result ∧ q.error = p.error ∧ q.updatedAt = some now) ∧
    (∀ j, j ≠ id →
      findPost ((updateScheduledPost s now id us).1).posts j =
        findPost s.posts j) :=
  ⟨update_core s now id us p hfind, fun j hj => update_off s now id us j hj⟩

/-- Witness for C2 (amended): the completed record is updated — `content`
changes, everything outside the allowed fields is preserved, including
the `completed` status. -/
theorem updateScheduledPost_frame_witness :
    (∃ q, findPost ((updateScheduledPost doneState 10 "p1"
        [.contentU "new"]).1).posts "p1" = some q ∧
      q.id = donePost.id ∧ q.status = donePost.status ∧
      q.createdAt = donePost.createdAt ∧
      q.completedAt = donePost.completedAt ∧ q.failedAt = donePost.failedAt ∧
      q.cancelledAt = donePost.cancelledAt ∧
      q.lastAttemptAt = donePost.lastAttemptAt ∧
      q.attempts = donePost.attempts ∧ q.maxAttempts = donePost.maxAttempts ∧
      q.result = donePost.result ∧ q.error = donePost.error ∧
      q.updatedAt = some 10) ∧
    (∀ j, j ≠ "p1" →
      findPost ((updateScheduledPost doneState 10 "p1"
        [.contentU "new"]).1).posts j = findPost doneState.posts j) :=
  updateScheduledPost_frame doneState 10 "p1" [.contentU "new"] donePost
    (by decide)

/-- C3: on an execution failure, `handlePostExecutionError` transitions the
record (whose `attempts` was already incremented) to `failed` with the
error stored when `attempts ≥ maxAttempts`, and otherwise back to
`scheduled` with `scheduledTime = now + min(300000, 60000·2^(attempts-1))`
(ceiling five minutes, base one minute). -/
theorem handleExecutionError_policy (s : Sched) (id : String) (p : Post)
    (now : Int) (errMsg : String) (hfind : findPost s.posts id = some p) :
    findPost (handlePostExecutionError now s id errMsg).posts id = some (
      if p.maxAttempts ≤ p.attempts then
        { p with status := .failed, failedAt := some now,
                 error := some errMsg }
      else
        { p with status := .scheduled,
                 scheduledTime := now + min retryCeiling
                   (retryBase * 2 ^ (p.attempts - 1)) }) := by
  unfold handlePostExecutionError
  rw [findPost_updatePost_self, hfind]
  rfl

/-- Witness for C3: the record on its final attempt transitions to
`failed` with the error message stored. -/
theorem handleExecutionError_policy_witness :
    findPost (handlePostExecutionError 500 exhaustedState "b" "boom").posts
        "b" = some (
      if exhaustedPost.maxAttempts ≤ exhaustedPost.attempts then
        { exhaustedPost with status := .failed, failedAt := some 500,
                             error := some "boom" }
      else
        { exhaustedPost with status := .scheduled,
                             scheduledTime := 500 + min retryCeiling
                               (retryBase * 2 ^ (exhaustedPost.attempts - 1)) }) :=
  handleExecutionError_policy exhaustedState "b" exhaustedPost 500 "boom"
    (by decide)

/-- C10: for a platform/operation pair absent from the static limits
table, `checkLimit` answers `allowed = true` with `remaining = null` and
`resetTime = null` (and no `retryAfter`), and the limiter state is not
touched — nothing is enforced or recorded against any window. -/
theorem checkLimit_unknown_key (rl : RL) (now : Int) (p op : String)
    (h : platformLimits p op = none) :
    checkLimit rl now p op = (rl, ⟨true, none, none, none⟩) := by
  unfold checkLimit
  rw [h]

/-- Witness for C10: an unknown platform is always allowed with null
fields. -/
theorem checkLimit_unknown_key_witness :
    checkLimit ⟨[("twitter:posts", [1, 2, 3])]⟩ 99 "telegram" "posts" =
      (⟨[("twitter:posts", [1, 2, 3])]⟩, ⟨true, none, none, none⟩) :=
  checkLimit_unknown_key ⟨[("twitter:posts", [1, 2, 3])]⟩ 99 "telegram"
    "posts" (by decide)

/-- C6: on any limiter state, for a key with a configured limit,
`checkLimit` never reports `remaining < 0`, and whenever it reports
`allowed = false` the returned `resetTime` is at (in fact strictly after)
the current time, equivalently `retryAfter = resetTime - now > 0`. -/
theorem checkLimit_window_invariant (rl : RL) (now : Int) (p op : String)
    (cfg : LimitCfg) (hcfg : platformLimits p op = some cfg) :
    (∃ r, (checkLimit rl now p op).2.remaining = some r ∧ 0 ≤ r) ∧
    ((checkLimit rl now p op).2.allowed = false →
      ∃ rt, (checkLimit rl now p op).2.resetTime = some rt ∧ now ≤ rt ∧
        (checkLimit rl now p op).2.retryAfter = some (rt - now) ∧
        0 < rt - now) := by
  obtain ⟨hlim, hwin⟩ := platformLimits_pos p op cfg hcfg
  unfold checkLimit
  rw [hcfg]
  simp only []
  constructor
  · exact ⟨_, rfl, le_max_left 0 _⟩
  · intro hfalse
    have hge : cfg.limit ≤
        ((getRequests rl.requests (rlKey p op)).filter
          (fun t => decide (now - cfg.window < t))).length := by
      have := of_decide_eq_false hfalse
      omega
    cases hv : (getRequests rl.requests (rlKey p op)).filter
        (fun t => decide (now - cfg.window < t)) with
    | nil =>
      rw [hv] at hge
      simp at hge
      omega
    | cons t ts =>
      have hmin : now - cfg.window < listMin t ts :=
        filter_min_bound (now - cfg.window) _ t ts hv
      have hfa : decide ((t :: ts).length < cfg.limit) = false := by
        rw [← hv]
        exact hfalse
      refine ⟨listMin t ts + cfg.window, rfl, by omega, ?_, by omega⟩
      rw [hfa]
      simp

/-- Witness for C6: the invariant instantiated on a small Twitter posts
window state. -/
theorem checkLimit_window_invariant_witness :
    (∃ r, (checkLimit ⟨[("twitter:posts", [5, 7])]⟩ 10 "twitter"
        "posts").2.remaining = some r ∧ 0 ≤ r) ∧
    ((checkLimit ⟨[("twitter:posts", [5, 7])]⟩ 10 "twitter"
        "posts").2.allowed = false →
      ∃ rt, (checkLimit ⟨[("twitter:posts", [5, 7])]⟩ 10 "twitter"
          "posts").2.resetTime = some rt ∧ (10 : Int) ≤ rt ∧
        (checkLimit ⟨[("twitter:posts", [5, 7])]⟩ 10 "twitter"
          "posts").2.retryAfter = some (rt - 10) ∧
        0 < rt - 10) :=
  checkLimit_window_invariant ⟨[("twitter:posts", [5, 7])]⟩ 10 "twitter"
    "posts" ⟨300, 900000⟩ (by decide)

/-- C7: after 300 recorded `twitter`/`posts` requests all inside the
trailing 15-minute window, `checkLimit` denies with `retryAfter > 0`;
at a later time when every recorded timestamp has left the window, it
allows again. -/
theorem rateLimiter_scenario_three_hundred (ts : List Int) (now1 now2 : Int)
    (hlen : ts.length = 300)
    (hin : ∀ t ∈ ts, now1 - 900000 < t)
    (hout : ∀ t ∈ ts, t ≤ now2 - 900000) :
    ((checkLimit (ts.foldl (fun r t => recordRequest r t "twitter" "posts")
        ⟨[]⟩) now1 "twitter" "posts").2.allowed = false ∧
      ∃ ra, (checkLimit (ts.foldl
          (fun r t => recordRequest r t "twitter" "posts") ⟨[]⟩) now1
          "twitter" "posts").2.retryAfter = some ra ∧ 0 < ra) ∧
    (checkLimit (ts.foldl (fun r t => recordRequest r t "twitter" "posts")
        ⟨[]⟩) now2 "twitter" "posts").2.allowed = true := by
  obtain ⟨t0, rest, rfl⟩ : ∃ t0 rest, ts = t0 :: rest := by
    cases ts with
    | nil => simp at hlen
    | cons a l => exact ⟨a, l, rfl⟩
  have hcfg : platformLimits "twitter" "posts" = some ⟨300, 900000⟩ := by
    decide
  have hreq : getRequests ((t0 :: rest).foldl
      (fun r t => recordRequest r t "twitter" "posts") ⟨[]⟩).requests
      (rlKey "twitter" "posts") = t0 :: rest := by
    rw [getRequests_foldl_record]
    rfl
  have hfilter1 : (t0 :: rest).filter (fun t => decide (now1 - 900000 < t)) =
      t0 :: rest :=
    List.filter_eq_self.mpr (fun t ht => decide_eq_true (hin t ht))
  have hfilter2 : (t0 :: rest).filter (fun t => decide (now2 - 900000 < t)) =
      [] := by
    rw [List.filter_eq_nil_iff]
    intro t ht
    simpa using not_lt.mpr (hout t ht)
  unfold checkLimit
  rw [hcfg]
  simp only []
  rw [hreq, hfilter1, hfilter2]
  have hmin : now1 - 900000 < listMin t0 rest :=
    filter_min_bound (now1 - 900000) (t0 :: rest) t0 rest hfilter1
  have hfa : decide ((t0 :: rest).length < (⟨300, 900000⟩ : LimitCfg).limit)
      = false := by
    rw [hlen]
    decide
  refine ⟨⟨hfa, listMin t0 rest + 900000 - now1, ?_, by omega⟩, by decide⟩
  rw [hfa]
  simp

set_option maxRecDepth 4000 in
/-- Witness for C7: 300 requests at time 900000 deny at time 900000 and
allow at time 1800000. -/
theorem rateLimiter_scenario_three_hundred_witness :
    ((checkLimit ((List.replicate 300 (900000 : Int)).foldl
        (fun r t => recordRequest r t "twitter" "posts") ⟨[]⟩) 900000
        "twitter" "posts").2.allowed = false ∧
      ∃ ra, (checkLimit ((List.replicate 300 (900000 : Int)).foldl
          (fun r t => recordRequest r t "twitter" "posts") ⟨[]⟩) 900000
          "twitter" "posts").2.retryAfter = some ra ∧ 0 < ra) ∧
    (checkLimit ((List.replicate 300 (900000 : Int)).foldl
        (fun r t => recordRequest r t "twitter" "posts") ⟨[]⟩) 1800000
        "twitter" "posts").2.allowed = true :=
  rateLimiter_scenario_three_hundred (List.replicate 300 (900000 : Int))
    900000 1800000 (by decide) (by decide) (by decide)

/-- C4: whenever an attempt of the retry loop fails with a non-retryable
error message (one containing a substring of the fixed list), the error
is raised immediately with no further attempts; in particular, when this
happens on the very first attempt of `postToPlatform`, exactly one
rate-limiter request has been recorded on `platform:posts` — not
`maxRetries` many. -/
theorem postToPlatform_nonretryable_immediate
    (call : Nat → Except String String) (rl : RL) (now : Int)
    (platform : String) (n : Nat) (e : String)
    (hsup : supportedPlatform platform = true) (hn : 1 ≤ n)
    (hfirst : call 1 = .error e) (hnr : isNonRetryableError e = true) :
    (∀ (rl' : RL) (attempt fuel : Nat) (lastErr e' : String),
        call attempt = .error e' → isNonRetryableError e' = true →
        postLoop call platform n now rl' attempt (fuel + 1) lastErr =
          (recordRequest rl' now platform "posts", .error e')) ∧
    postToPlatform true call rl now platform n =
      (recordRequest ((checkLimit rl now platform "posts").1) now platform
        "posts", .error e) ∧
    (getRequests (postToPlatform true call rl now platform n).1.requests
        (rlKey platform "posts")).length =
      (getRequests ((checkLimit rl now platform "posts").1).requests
        (rlKey platform "posts")).length + 1 := by
  have hmain : postToPlatform true call rl now platform n =
      (recordRequest ((checkLimit rl now platform "posts").1) now platform
        "posts", .error e) := by
    unfold postToPlatform
    rw [hsup]
    simp only [Bool.not_true, Bool.false_eq_true, if_false, Bool.not_false,
               if_true]
    obtain ⟨m, rfl⟩ : ∃ m, n = m + 1 := ⟨n - 1, by omega⟩
    exact postLoop_nonretryable call platform (m + 1) now _ 1 m "" e hfirst hnr
  refine ⟨fun rl' a f le e' hc hn' =>
    postLoop_nonretryable call platform n now rl' a f le e' hc hn',
    hmain, ?_⟩
  rw [hmain]
  rw [show (recordRequest ((checkLimit rl now platform "posts").1) now platform
      "posts", (.error e : Except String String)).1 =
      recordRequest ((checkLimit rl now platform "posts").1) now platform
      "posts" from rfl]
  rw [getRequests_recordRequest_self]
  simp

/-- Witness for C4: an "Unauthorized access" failure on attempt 1 with
`maxRetries = 3` ends the call at once with a single recorded request. -/
theorem postToPlatform_nonretryable_immediate_witness :
    (∀ (rl' : RL) (attempt fuel : Nat) (lastErr e' : String),
        authFailCall attempt = .error e' → isNonRetryableError e' = true →
        postLoop authFailCall "twitter" 3 0 rl' attempt (fuel + 1) lastErr =
          (recordRequest rl' 0 "twitter" "posts", .error e')) ∧
    postToPlatform true authFailCall ⟨[]⟩ 0 "twitter" 3 =
      (recordRequest ((checkLimit ⟨[]⟩ 0 "twitter" "posts").1) 0 "twitter"
        "posts", .error "Unauthorized access") ∧
    (getRequests (postToPlatform true authFailCall ⟨[]⟩ 0 "twitter"
        3).1.requests (rlKey "twitter" "posts")).length =
      (getRequests ((checkLimit ⟨[]⟩ 0 "twitter" "posts").1).requests
        (rlKey "twitter" "posts")).length + 1 :=
  postToPlatform_nonretryable_immediate authFailCall ⟨[]⟩ 0 "twitter" 3
    "Unauthorized access" (by decide) (by decide) rfl (by decide)

/-- C8: `cleanupOldPosts` removes exactly the records in a terminal status
whose terminal timestamp strictly predates the cutoff
(`shouldCleanup`), keeps everything else, returns the number removed
(removed + kept = total), and is idempotent: repeating the call with the
same clock and argument removes zero records and leaves the state fixed. -/
theorem cleanupOldPosts_correct (s : Sched) (now days : Int) :
    ((cleanupOldPosts s now days).1).posts =
      s.posts.filter (fun e => !shouldCleanup e.2 (now - days * dayMs)) ∧
    (∀ e ∈ s.posts, (e ∈ ((cleanupOldPosts s now days).1).posts ↔
      shouldCleanup e.2 (now - days * dayMs) = false)) ∧
    (cleanupOldPosts s now days).2 +
      ((cleanupOldPosts s now days).1).posts.length = s.posts.length ∧
    cleanupOldPosts ((cleanupOldPosts s now days).1) now days =
      ((cleanupOldPosts s now days).1, 0) := by
  refine ⟨rfl, ?_, ?_, ?_⟩
  · intro e he
    unfold cleanupOldPosts dropPosts
    simp only [List.mem_filter, he, true_and]
    constructor
    · intro h
      simpa using h
    · intro h
      simp [h]
  · unfold cleanupOldPosts dropPosts
    simp only []
    exact filter_length_partition s.posts
      (fun e => shouldCleanup e.2 (now - days * dayMs))
  · unfold cleanupOldPosts dropPosts
    simp only []
    have hkeep : (s.posts.filter
          (fun e => !shouldCleanup e.2 (now - days * dayMs))).filter
        (fun e => !shouldCleanup e.2 (now - days * dayMs)) =
        s.posts.filter (fun e => !shouldCleanup e.2 (now - days * dayMs)) :=
      List.filter_eq_self.mpr
        (fun e he => (List.mem_filter.mp he).2)
    have hremoved : (s.posts.filter
          (fun e => !shouldCleanup e.2 (now - days * dayMs))).filter
        (fun e => shouldCleanup e.2 (now - days * dayMs)) = [] := by
      rw [List.filter_eq_nil_iff]
      intro e he
      have := (List.mem_filter.mp he).2
      simp only [Bool.not_eq_true'] at this
      simp [this]
    rw [hkeep, hremoved]
    rfl

/-- C9: persisting the scheduled-post collection and loading it back
reconstructs the collection exactly — in particular every record keeps
its `id`, `status` and all timestamp fields (the ISO date round trip is
exact at millisecond precision). -/
theorem persistence_roundtrip (posts : List (String × Post))
    (hids : ∀ e ∈ posts, e.2.id = e.1)
    (hnd : (posts.map Prod.fst).Nodup) :
    loadScheduledPosts (saveScheduledPosts posts) = posts := by
  have h := load_aux posts [] hids (by simpa using hnd)
  simpa [loadScheduledPosts] using h

/-- Witness for C9: a two-record collection (one record with every
optional timestamp set) survives the save/load round trip unchanged. -/
theorem persistence_roundtrip_witness :
    loadScheduledPosts (saveScheduledPosts
      [("a", duePost), ("p1", donePost)]) = [("a", duePost), ("p1", donePost)] :=
  persistence_roundtrip [("a", duePost), ("p1", donePost)] (by decide)
    (by decide)

/-- C5: execution only ever starts on a record whose status is `scheduled`
at that moment.  (1) When the sweep's execution loop reaches an id it
collected, that record is still `scheduled` (the loop only mutates the
record being executed, and collected ids are distinct).  (2) The timer
callback leaves the collection untouched when the record is no longer
`scheduled` — it never executes an `executing`, `cancelled`, `completed`
or `failed` record.  (3) After a successful cancellation, under any
later run of operations (whose fresh schedule ids differ from the
cancelled one) the record stays `cancelled` while it exists, and no
later sweep ever collects it for execution. -/
theorem execution_only_scheduled (cb : Option ExecCb) :
    (∀ (now : Int) (s : Sched) (pre : List String) (id : String)
        (post : List String),
      WF s → dueIds s now = pre ++ id :: post →
      ∃ p, findPost ((pre.foldl (sweepStep cb now) s)).posts id = some p ∧
        p.status = .scheduled ∧ p.scheduledTime ≤ now) ∧
    (∀ (now : Int) (s : Sched) (id : String) (p : Post),
      findPost s.posts id = some p → p.status ≠ .scheduled →
      (timerFire cb now s id).posts = s.posts) ∧
    (∀ (ops : List Op) (s : Sched) (id : String) (p : Post),
      WF s → findPost s.posts id = some p → p.status = .cancelled →
      (∀ op ∈ ops, opSchedId op ≠ some id) →
      (∀ q, findPost (applyOps cb ops s).posts id = some q →
        q.status = .cancelled) ∧
      (∀ now2, id ∉ dueIds (applyOps cb ops s) now2)) := by
  refine ⟨fun now s pre id post hwf hdec =>
      sweep_exec_scheduled cb now s hwf pre id post hdec,
    fun now s id p hf h => timerFire_not_scheduled cb now s id p hf h,
    fun ops s id p hwf hf hst hops => ?_⟩
  have hinv : ∀ q, findPost s.posts id = some q → q.status = .cancelled := by
    intro q hq
    rw [hf] at hq
    injection hq with hq
    rw [← hq]
    exact hst
  obtain ⟨hwf', hinv'⟩ := cancelled_stable_run cb ops s id hwf hinv hops
  refine ⟨hinv', fun now2 hin => ?_⟩
  obtain ⟨q, hqmem, hqst, _⟩ := (mem_dueIds _ now2 id).mp hin
  have hq := mem_findPost _ _ _ hwf' hqmem
  rw [hinv' q hq] at hqst
  exact absurd hqst (by decide)

/-- Witness for C5: a singleton due record is `scheduled` when its sweep
execution starts; the timer does not touch a cancelled record; and after
cancellation a sweep run keeps the record `cancelled` and never collects
it as due. -/
theorem execution_only_scheduled_witness :
    (∃ p, findPost ((List.foldl (sweepStep (some okCb) 100) dueState
        [])).posts "a" = some p ∧ p.status = .scheduled ∧
        p.scheduledTime ≤ 100) ∧
    (timerFire (some okCb) 100 cancelledState "a").posts =
      cancelledState.posts ∧
    ((∀ q, findPost (applyOps (some okCb) [.sweep 200]
        cancelledState).posts "a" = some q → q.status = .cancelled) ∧
     (∀ now2, "a" ∉ dueIds (applyOps (some okCb) [.sweep 200]
        cancelledState) now2)) :=
  ⟨(execution_only_scheduled (some okCb)).1 100 dueState [] "a" []
      (by decide) (by decide),
   (execution_only_scheduled (some okCb)).2.1 100 cancelledState "a"
      cancelledPost (by decide) (by decide),
   (execution_only_scheduled (some okCb)).2.2 [.sweep 200] cancelledState
      "a" cancelledPost (by decide) (by decide) (by decide) (by decide)⟩

end Crosspost
